import Mathlib

/-!
Shallow embedding of the tadashi polyhedral schedule transformer
(src/tadashi.c, src/transformations.c, and the C/Python bridge).

The polyhedral kernel objects are modelled as follows:

* quasi-affine expressions (`isl_aff`) become the expression type `Aff`
  with evaluation over integer vectors; integer division is floor
  division, as in isl;
* a piece domain (`isl_set` appearing as a domain of one piece of a
  piecewise object) is abstracted to `SetD`: its identity tag (the
  statement tuple) and its dimension;
* a band's partial schedule (`isl_multi_union_pw_aff`) becomes `Mupa`:
  an optional output tuple identifier, the number of output dimensions,
  and one list of affine expressions per piece;
* schedule trees (`isl_schedule_node`) become the inductive `STree`
  with domain, band, filter, sequence and leaf nodes; a cursor
  (`isl_schedule_node` position) is a tree together with a root path;
* statement instance sets are finite lists of instances, an instance
  being a statement tag paired with an iteration vector.
-/

namespace Tadashi

/-- Quasi-affine expressions in the style of `isl_aff`: variables, integer
constants, addition, scaling by a constant and floor division. -/
inductive Aff where
  | var (k : Nat)
  | const (c : Int)
  | add (a b : Aff)
  | mul (c : Int) (a : Aff)
  | fdiv (a : Aff) (d : Int)
deriving DecidableEq

/-- Evaluate an affine expression on an iteration vector. -/
def Aff.eval : Aff → List Int → Int
  | .var k, xs => xs.getD k 0
  | .const c, _ => c
  | .add a b, xs => a.eval xs + b.eval xs
  | .mul c a, xs => c * a.eval xs
  | .fdiv a d, xs => Int.fdiv (a.eval xs) d

/-- A piece domain: an `isl_set` abstracted to its identity (the statement
tuple tag it ranges over) and the dimension of its space. -/
structure SetD where
  tag : Nat
  ndim : Nat
deriving DecidableEq

/-- One piece of a piecewise affine function: a domain and the affine
expression taken on it (`isl_pw_aff` restricted to a single set). -/
structure PwAff where
  dom : SetD
  aff : Aff
deriving DecidableEq

/-- One piece of a multi piecewise affine function: a domain and the list of
affine expressions (one per output dimension) taken on it. -/
structure Piece where
  dom : SetD
  affs : List Aff
deriving DecidableEq

/-- A band's partial schedule (`isl_multi_union_pw_aff`): optional output
tuple identifier, output dimension count, and the pieces. -/
structure Mupa where
  tupleId : Option Nat
  dimOut : Nat
  pieces : List Piece
deriving DecidableEq

/-- A statement instance: statement tag paired with an iteration vector. -/
abbrev StmtInstance := Nat × List Int

/-- Schedule trees: the node variants the sources exercise.  `domainN` is
the root carrying the instance set, `band` carries a partial schedule and
a parallel annotation, `filterN` restricts to an instance set, `sequenceN`
has ordered children, `leaf` is terminal. -/
inductive STree where
  | leaf
  | band (sched : Mupa) (par : Bool) (child : STree)
  | filterN (dom : List StmtInstance) (child : STree)
  | sequenceN (children : List STree)
  | domainN (dom : List StmtInstance) (child : STree)

mutual

def STree.decEq : (a b : STree) → Decidable (a = b)
  | .leaf, .leaf => .isTrue rfl
  | .band m p c, .band m' p' c' =>
    if hm : m = m' then
      if hp : p = p' then
        match STree.decEq c c' with
        | .isTrue hc => .isTrue (by rw [hm, hp, hc])
        | .isFalse hc => .isFalse (fun h => hc (by cases h; rfl))
      else .isFalse (fun h => hp (by cases h; rfl))
    else .isFalse (fun h => hm (by cases h; rfl))
  | .filterN d c, .filterN d' c' =>
    if hd : d = d' then
      match STree.decEq c c' with
      | .isTrue hc => .isTrue (by rw [hd, hc])
      | .isFalse hc => .isFalse (fun h => hc (by cases h; rfl))
    else .isFalse (fun h => hd (by cases h; rfl))
  | .sequenceN cs, .sequenceN cs' =>
    match STree.decEqList cs cs' with
    | .isTrue hc => .isTrue (by rw [hc])
    | .isFalse hc => .isFalse (fun h => hc (by cases h; rfl))
  | .domainN d c, .domainN d' c' =>
    if hd : d = d' then
      match STree.decEq c c' with
      | .isTrue hc => .isTrue (by rw [hd, hc])
      | .isFalse hc => .isFalse (fun h => hc (by cases h; rfl))
    else .isFalse (fun h => hd (by cases h; rfl))
  | .leaf, .band _ _ _ => .isFalse (fun h => STree.noConfusion h)
  | .leaf, .filterN _ _ => .isFalse (fun h => STree.noConfusion h)
  | .leaf, .sequenceN _ => .isFalse (fun h => STree.noConfusion h)
  | .leaf, .domainN _ _ => .isFalse (fun h => STree.noConfusion h)
  | .band _ _ _, .leaf => .isFalse (fun h => STree.noConfusion h)
  | .band _ _ _, .filterN _ _ => .isFalse (fun h => STree.noConfusion h)
  | .band _ _ _, .sequenceN _ => .isFalse (fun h => STree.noConfusion h)
  | .band _ _ _, .domainN _ _ => .isFalse (fun h => STree.noConfusion h)
  | .filterN _ _, .leaf => .isFalse (fun h => STree.noConfusion h)
  | .filterN _ _, .band _ _ _ => .isFalse (fun h => STree.noConfusion h)
  | .filterN _ _, .sequenceN _ => .isFalse (fun h => STree.noConfusion h)
  | .filterN _ _, .domainN _ _ => .isFalse (fun h => STree.noConfusion h)
  | .sequenceN _, .leaf => .isFalse (fun h => STree.noConfusion h)
  | .sequenceN _, .band _ _ _ => .isFalse (fun h => STree.noConfusion h)
  | .sequenceN _, .filterN _ _ => .isFalse (fun h => STree.noConfusion h)
  | .sequenceN _, .domainN _ _ => .isFalse (fun h => STree.noConfusion h)
  | .domainN _ _, .leaf => .isFalse (fun h => STree.noConfusion h)
  | .domainN _ _, .band _ _ _ => .isFalse (fun h => STree.noConfusion h)
  | .domainN _ _, .filterN _ _ => .isFalse (fun h => STree.noConfusion h)
  | .domainN _ _, .sequenceN _ => .isFalse (fun h => STree.noConfusion h)

def STree.decEqList : (as bs : List STree) → Decidable (as = bs)
  | [], [] => .isTrue rfl
  | [], _ :: _ => .isFalse (fun h => List.noConfusion h)
  | _ :: _, [] => .isFalse (fun h => List.noConfusion h)
  | a :: as, b :: bs =>
    match STree.decEq a b, STree.decEqList as bs with
    | .isTrue h1, .isTrue h2 => .isTrue (by rw [h1, h2])
    | .isFalse h1, _ => .isFalse (fun h => h1 (by cases h; rfl))
    | _, .isFalse h2 => .isFalse (fun h => h2 (by cases h; rfl))

end

instance : DecidableEq STree := STree.decEq

/-- Ordered children of a schedule-tree node. -/
def STree.children : STree → List STree
  | .leaf => []
  | .band _ _ c => [c]
  | .filterN _ c => [c]
  | .sequenceN cs => cs
  | .domainN _ c => [c]

/-- Subtree at a root path, if the path is valid. -/
def subtreeAt : STree → List Nat → Option STree
  | t, [] => some t
  | t, i :: p =>
    match (STree.children t)[i]? with
    | some c => subtreeAt c p
    | none => none

/-- Replace the child at index `i`, if the node has one there. -/
def setChild : STree → Nat → STree → Option STree
  | .band m par _, 0, x => some (.band m par x)
  | .filterN d _, 0, x => some (.filterN d x)
  | .domainN d _, 0, x => some (.domainN d x)
  | .sequenceN cs, i, x => if i < cs.length then some (.sequenceN (cs.set i x)) else none
  | _, _, _ => none

/-- Replace the subtree at a root path, if the path is valid. -/
def replaceAt : STree → List Nat → STree → Option STree
  | _, [], x => some x
  | t, i :: p, x =>
    match (STree.children t)[i]? with
    | none => none
    | some c =>
      match replaceAt c p x with
      | none => none
      | some c' => setChild t i c'

/-- Cursor: an owning schedule tree plus the path to the focused node
(the `isl_schedule_node` position). -/
structure Cursor where
  tree : STree
  path : List Nat
deriving DecidableEq

/-! Transformation primitives (src/transformations.c).  Each primitive takes
the cursor by value and returns a new cursor; an isl error (`NULL` result)
is `none`. -/

/-- The outer piece expressions produced by `isl_schedule_node_band_tile`
with the default isl options: `tile_scale_tile_loops` is set, so a tile
loop takes the values of the original dimension rounded down to a multiple
of the tile size. -/
def tileOuter (m : Mupa) (t : Int) : Mupa :=
  { tupleId := m.tupleId, dimOut := m.dimOut,
    pieces := m.pieces.map (fun pc =>
      { dom := pc.dom, affs := pc.affs.map (fun a => .mul t (.fdiv a t)) }) }

/-- The point-loop piece expressions produced by
`isl_schedule_node_band_tile` with the default isl options:
`tile_shift_point_loops` is set, so a point loop is shifted to start at
zero, taking the values `d - t * floor(d / t)`. -/
def tileInner (m : Mupa) (t : Int) : Mupa :=
  { tupleId := m.tupleId, dimOut := m.dimOut,
    pieces := m.pieces.map (fun pc =>
      { dom := pc.dom, affs := pc.affs.map (fun a => .add a (.mul (-t) (.fdiv a t))) }) }

/-- Embeds `tadashi_tile`: build a one-element value list from the band
space (an isl error unless the band is one-dimensional), and call
`isl_schedule_node_band_tile` (tile sizes must be positive), which replaces
the band by a tile band over a point band and returns a pointer to the
outer (tile) band. -/
def tadashi_tile (c : Cursor) (tile_size : Int) : Option Cursor := do
  match ← subtreeAt c.tree c.path with
  | .band m par child =>
    if m.dimOut = 1 ∧ 0 < tile_size then do
      let t' ← replaceAt c.tree c.path
        (.band (tileOuter m tile_size) par (.band (tileInner m tile_size) par child))
      pure ⟨t', c.path⟩
    else none
  | _ => none

/-- Embeds `tadashi_interchange`: read the focused band's partial schedule,
delete the band (`isl_schedule_node_delete` puts its child at the old
position and leaves the cursor there), descend to the first child, and
insert a band with the saved partial schedule there
(`isl_schedule_node_insert_partial_schedule` returns a pointer to the new
band, which carries default member annotations). -/
def tadashi_interchange (c : Cursor) : Option Cursor := do
  match ← subtreeAt c.tree c.path with
  | .band mupa _ child => do
    let t1 ← replaceAt c.tree c.path child
    let p1 := c.path ++ [0]
    let foc1 ← subtreeAt t1 p1
    let t2 ← replaceAt t1 p1 (.band mupa false foc1)
    pure ⟨t2, p1⟩
  | _ => none

/-- Embeds `_pa_val`: the piecewise affine function that is the constant
`val` on the given set. -/
def pa_val (set : SetD) (val : Int) : PwAff :=
  { dom := set, aff := .const val }

/-- Embeds `_pa_id`: the piecewise affine function on the given set that
projects onto input dimension `id_idx` (an isl error when the index is
outside the set's space). -/
def pa_id (set : SetD) (id_idx : Int) : Option PwAff :=
  if 0 ≤ id_idx ∧ id_idx.toNat < set.ndim then
    some { dom := set, aff := .var id_idx.toNat }
  else none

/-- Failure modes of the shift helper: the explicit `assert` on the band
dimension, or an isl error elsewhere in the pipeline. -/
inductive ShiftErr where
  | assertFail
  | islError
deriving DecidableEq

/-- Embeds `_shift_partial`: read the focused band's one-dimensional
partial schedule (saving its output tuple identifier and asserting that
the output dimension count is exactly one), enumerate its piece domains,
build a delta that is `fn` on piece `idx` and the zero constant on every
other piece, restore the tuple identifier on the delta, and shift the band
by it (`isl_schedule_node_band_shift` adds the delta to the partial
schedule pointwise). -/
def shiftPartialImpl (c : Cursor) (fn : SetD → Int → Option PwAff)
    (idx : Int) (const_val : Int) : Except ShiftErr Cursor :=
  match subtreeAt c.tree c.path with
  | some (.band mupa par child) =>
    let id := mupa.tupleId
    if mupa.dimOut = 1 then
      let pas := (mupa.pieces.enum).mapM (fun spc =>
        if idx = (spc.1 : Int) then fn spc.2.dom const_val else some (pa_val spc.2.dom 0))
      match pas with
      | none => .error .islError
      | some pas =>
        let delta : Mupa :=
          { tupleId := id, dimOut := 1,
            pieces := pas.map (fun pa => { dom := pa.dom, affs := [pa.aff] }) }
        let shifted : Mupa :=
          { tupleId := mupa.tupleId, dimOut := mupa.dimOut,
            pieces := List.zipWith
              (fun pc dc => { dom := pc.dom, affs := List.zipWith Aff.add pc.affs dc.affs })
              mupa.pieces delta.pieces }
        match replaceAt c.tree c.path (.band shifted par child) with
        | some t' => .ok ⟨t', c.path⟩
        | none => .error .islError
    else .error .assertFail
  | _ => .error .islError

/-- Embeds `tadashi_partial_shift_var`. -/
def tadashi_partial_shift_var (c : Cursor) (pa_idx : Int) (id_idx : Int) :
    Except ShiftErr Cursor :=
  shiftPartialImpl c pa_id pa_idx id_idx

/-- Embeds `tadashi_partial_shift_val`. -/
def tadashi_partial_shift_val (c : Cursor) (pa_idx : Int) (val : Int) :
    Except ShiftErr Cursor :=
  shiftPartialImpl c (fun s v => some (pa_val s v)) pa_idx val

/-- Embeds `tadashi_full_shift_var`: the body is the same call to the
shift helper as the partial variant. -/
def tadashi_full_shift_var (c : Cursor) (pa_idx : Int) (id_idx : Int) :
    Except ShiftErr Cursor :=
  shiftPartialImpl c pa_id pa_idx id_idx

/-- Embeds `tadashi_full_shift_val`: the body is the same call to the
shift helper as the partial variant. -/
def tadashi_full_shift_val (c : Cursor) (pa_idx : Int) (val : Int) :
    Except ShiftErr Cursor :=
  shiftPartialImpl c (fun s v => some (pa_val s v)) pa_idx val

/-- Modelled from the spec: `tadashi_set_parallel` is implemented in a
source file not present here (only its caller is); per the spec it
annotates the focused band as candidate-parallel. -/
def tadashi_set_parallel (c : Cursor) : Option Cursor := do
  match ← subtreeAt c.tree c.path with
  | .band m _ child => do
    let t' ← replaceAt c.tree c.path (.band m true child)
    pure ⟨t', c.path⟩
  | _ => none

/-! The flat schedule map of a schedule tree (`isl_schedule_get_map`
restricted to finite instance domains): every instance of the root domain
is mapped to its schedule point; a band contributes the values of its
partial schedule, a sequence contributes the index of the child the
instance belongs to, a filter restricts the instances flowing into its
subtree. -/

/-- Value of a partial schedule on one instance: the expressions of the
piece whose domain covers the instance's statement. -/
def evalMupa (m : Mupa) (x : StmtInstance) : Option (List Int) :=
  match m.pieces.find? (fun pc => pc.dom.tag = x.1) with
  | some pc => some (pc.affs.map (fun a => a.eval x.2))
  | none => none

mutual

/-- Schedule points assigned below a node to the instances reaching it. -/
def schedMapAux : STree → List StmtInstance → Option (List (StmtInstance × List Int))
  | .leaf, dom => some (dom.map (fun x => (x, [])))
  | .band m _ c, dom => do
    let rest ← schedMapAux c dom
    rest.mapM (fun xt => do
      let v ← evalMupa m xt.1
      pure (xt.1, v ++ xt.2))
  | .filterN f c, dom => schedMapAux c (dom.filter (fun x => decide (x ∈ f)))
  | .sequenceN cs, dom => schedMapSeq cs 0 dom
  | .domainN _ _, _ => none

/-- Schedule points contributed by the children of a sequence, each child
prefixed by its position. -/
def schedMapSeq : List STree → Int → List StmtInstance → Option (List (StmtInstance × List Int))
  | [], _, _ => some []
  | c :: cs, i, dom => do
    let m1 ← schedMapAux c dom
    let rest ← schedMapSeq cs (i + 1) dom
    pure (m1.map (fun xt => (xt.1, i :: xt.2)) ++ rest)

end

/-- Flat schedule map of a full schedule tree; the root must be a domain
node. -/
def getScheduleMap : STree → Option (List (StmtInstance × List Int))
  | .domainN dom c => schedMapAux c dom
  | _ => none

/-! Legality oracle (src/tadashi.c). -/

/-- Strict lexicographic order on integer tuples of equal length. -/
def lexLt : List Int → List Int → Bool
  | [], [] => false
  | a :: as, b :: bs => decide (a < b) || (decide (a = b) && lexLt as bs)
  | _, _ => false

/-- Non-strict lexicographic order on integer tuples of equal length. -/
def lexLe : List Int → List Int → Bool
  | [], [] => true
  | a :: as, b :: bs => decide (a < b) || (decide (a = b) && lexLe as bs)
  | _, _ => false

/-- Image of one instance under a finite schedule map. -/
def applyMap (S : List (StmtInstance × List Int)) (x : StmtInstance) : Option (List Int) :=
  (S.find? (fun p => decide (p.1 = x))).map (fun p => p.2)

/-- Embeds the two `isl_union_map_apply_domain` / `apply_range` steps of
`check_legality`: each dependence becomes the pair of schedule points of
its source and sink; pairs whose endpoints the schedule map does not cover
fall away, as in relation composition. -/
def composeSched (S : List (StmtInstance × List Int))
    (dep : List (StmtInstance × StmtInstance)) : List (List Int × List Int) :=
  dep.filterMap (fun sk =>
    match applyMap S sk.1, applyMap S sk.2 with
    | some a, some b => some (a, b)
    | _, _ => none)

/-- Embeds `isl_union_map_deltas`: pointwise difference sink minus source. -/
def deltasOf (pairs : List (List Int × List Int)) : List (List Int) :=
  pairs.map (fun ab => List.zipWith (fun s t => t - s) ab.1 ab.2)

/-- Embeds `get_zeros_on_union_set`: convert the delta union set to a
single set (an isl error when the union set does not consist of exactly
one space) and build the zero tuple of its space. -/
def get_zeros_on_union_set (delta : List (List Int)) : Option (List Int) :=
  match delta with
  | [] => none
  | d :: rest =>
    if rest.all (fun x => x.length = d.length) then
      some (List.replicate d.length 0)
    else none

/-- Embeds `check_legality`: legal immediately when the dependence
relation is empty; otherwise compose the dependences with the schedule
map, take the delta set, and report legal exactly when no delta is
lexicographically at most the zero tuple (the `lex_le` relation between
the delta set and the zero set is empty). -/
def check_legality (S : List (StmtInstance × List Int))
    (dep : List (StmtInstance × StmtInstance)) : Option Bool :=
  if dep.isEmpty then some true
  else
    let delta := deltasOf (composeSched S dep)
    match get_zeros_on_union_set delta with
    | none => none
    | some z => some (delta.all (fun d => !lexLe d z))

/-- Embeds `check_schedule_legality`: apply `check_legality` to the flat
schedule map of the schedule. -/
def check_schedule_legality (t : STree)
    (dep : List (StmtInstance × StmtInstance)) : Option Bool := do
  check_legality (← getScheduleMap t) dep

/-- Modelled from the spec: `tadashi_check_legality` is implemented in
legality.c, which is not among these sources (only its caller is); the
spec describes the oracle as exactly the delta-set procedure of
`check_schedule_legality`. -/
def tadashi_check_legality (t : STree)
    (dep : List (StmtInstance × StmtInstance)) : Option Bool :=
  check_schedule_legality t dep

/-- Number of schedule dimensions introduced strictly above the node at
the given path: band output dimensions plus one per sequence crossed. -/
def dimsAbove : STree → List Nat → Option Nat
  | _, [] => some 0
  | t, i :: p => do
    let c ← (STree.children t)[i]?
    let rest ← dimsAbove c p
    let here :=
      match t with
      | .band m _ _ => m.dimOut
      | .sequenceN _ => 1
      | _ => 0
    pure (here + rest)

/-- Modelled from the spec: `tadashi_check_legality_parallel` is
implemented in legality.c, which is not among these sources; per the spec
the parallel variant of the oracle receives the node below the candidate
band and checks that no dependence delta has a nonzero component at the
band's dimension. -/
def tadashi_check_legality_parallel (c : Cursor)
    (dep : List (StmtInstance × StmtInstance)) : Option Bool := do
  let S ← getScheduleMap c.tree
  let k ← dimsAbove c.tree c.path
  if k = 0 then none
  else
    let pairs := composeSched S dep
    pure (pairs.all (fun ab =>
      decide ((List.zipWith (fun s t => t - s) ab.1 ab.2).getD (k - 1) 0 = 0)))

/-! Session manager (the C/Python bridge): per-SCoP state and the
begin/apply/commit protocol. -/

/-- Per-SCoP record of the bridge (`struct scop_t`): the cached dependence
relation, the current cursor, the scratch cursor (`tmp_node`, null when
absent) and the `modified` flag. -/
structure ScopState where
  dependency : List (StmtInstance × StmtInstance)
  current : Cursor
  tmp : Option Cursor
  modified : Bool
deriving DecidableEq

/-- Embeds `pre_transform`: release any previous scratch cursor and place
a copy of the current cursor in the scratch slot. -/
def pre_transform (s : ScopState) : ScopState :=
  { s with tmp := some s.current }

/-- Embeds `post_transform`: run the legality oracle on the schedule of
the scratch cursor, set `modified`, swap the scratch and current cursors
unconditionally, and return the oracle's verdict. -/
def post_transform (s : ScopState) : Option (Bool × ScopState) := do
  let cand ← s.tmp
  let legal ← tadashi_check_legality cand.tree s.dependency
  pure (legal, { s with modified := true, current := cand, tmp := some s.current })

/-- One driver-level transformation: `pre_transform`, the primitive on the
scratch cursor, then `post_transform`; every transformation entry point of
the bridge has this shape. -/
def applyTransform (prim : Cursor → Option Cursor) (s : ScopState) :
    Option (Bool × ScopState) := do
  let s1 := pre_transform s
  let c ← s1.tmp
  let c' ← prim c
  post_transform { s1 with tmp := some c' }

/-- Embeds the driver operation `tile`. -/
def tile (s : ScopState) (tile_size : Int) : Option (Bool × ScopState) :=
  applyTransform (fun c => tadashi_tile c tile_size) s

/-- Embeds the driver operation `interchange`. -/
def interchange (s : ScopState) : Option (Bool × ScopState) :=
  applyTransform tadashi_interchange s

/-- Embeds the driver operation `partial_shift_val`. -/
def partial_shift_val (s : ScopState) (pa_idx : Int) (val : Int) :
    Option (Bool × ScopState) :=
  applyTransform (fun c => (tadashi_partial_shift_val c pa_idx val).toOption) s

/-- Embeds the driver operation `partial_shift_var`. -/
def partial_shift_var (s : ScopState) (pa_idx : Int) (id_idx : Int) :
    Option (Bool × ScopState) :=
  applyTransform (fun c => (tadashi_partial_shift_var c pa_idx id_idx).toOption) s

/-- Embeds the driver operation `full_shift_val`. -/
def full_shift_val (s : ScopState) (pa_idx : Int) (val : Int) :
    Option (Bool × ScopState) :=
  applyTransform (fun c => (tadashi_full_shift_val c pa_idx val).toOption) s

/-- Embeds the driver operation `full_shift_var`. -/
def full_shift_var (s : ScopState) (pa_idx : Int) (id_idx : Int) :
    Option (Bool × ScopState) :=
  applyTransform (fun c => (tadashi_full_shift_var c pa_idx id_idx).toOption) s

/-- Embeds the driver operation `set_parallel`: `pre_transform`, the
(spec-modelled) parallel annotation on the scratch cursor, the parallel
legality oracle on the first child of the annotated band, then — exactly
as in `post_transform` — set `modified`, swap unconditionally and return
the verdict. -/
def set_parallel (s : ScopState) : Option (Bool × ScopState) := do
  let s1 := pre_transform s
  let c ← s1.tmp
  let c' ← tadashi_set_parallel c
  let p1 := c'.path ++ [0]
  let _ ← subtreeAt c'.tree p1
  let legal ← tadashi_check_legality_parallel ⟨c'.tree, p1⟩ s.dependency
  pure (legal, { s1 with modified := true, current := c', tmp := some s.current })

/-- Embeds `rollback`: swap the scratch and current cursors back.  A
missing scratch cursor would leave the record with a null current node;
this is the error outcome. -/
def rollback (s : ScopState) : Option ScopState := do
  let t ← s.tmp
  pure { s with current := t, tmp := some s.current }

/-- Embeds `goto_root`: reseat the current cursor at the root. -/
def goto_root (s : ScopState) : ScopState :=
  { s with current := { s.current with path := [] } }

/-- Embeds `goto_parent`: reseat the current cursor at the parent of the
focused node (an isl error at the root). -/
def goto_parent (s : ScopState) : Option ScopState :=
  match s.current.path with
  | [] => none
  | _ :: _ => some { s with current := { s.current with path := s.current.path.dropLast } }

/-- Embeds `goto_child`: reseat the current cursor at child `i` of the
focused node (an isl error when no such child exists). -/
def goto_child (s : ScopState) (i : Nat) : Option ScopState :=
  match subtreeAt s.current.tree s.current.path with
  | none => none
  | some t =>
    if i < (STree.children t).length then
      some { s with current := { s.current with path := s.current.path ++ [i] } }
    else none

/-- What `generate_code_callback` prints for one SCoP. -/
inductive Emitted where
  | original
  | generated (sched : STree)
deriving DecidableEq

/-- Embeds `generate_code_callback`: an unmodified SCoP is printed as its
original text (`pet_scop_print_original`); a modified one is passed to the
code generator together with the schedule of the current cursor. -/
def generate_code_callback (s : ScopState) : Emitted :=
  if !s.modified then .original
  else .generated s.current.tree

/-! Concrete instances used to evaluate the development: a SCoP with two
statements scheduled by one band (statement 0 at time 0, statement 1 at
time 1) and a flow dependence from statement 0 to statement 1, plus
small band towers for the structural primitives. -/

/-- Instance domain of the example SCoP: one instance of each of two
statements. -/
def exDom : List StmtInstance := [(0, []), (1, [])]

/-- Band schedule of the example SCoP: statement 0 at 0, statement 1 at 1. -/
def exMupa : Mupa := ⟨some 3, 1, [⟨⟨0, 0⟩, [.const 0]⟩, ⟨⟨1, 0⟩, [.const 1]⟩]⟩

/-- Current cursor of the example SCoP, focused on the band. -/
def exCursor : Cursor := ⟨.domainN exDom (.band exMupa false .leaf), [0]⟩

/-- Example SCoP state: statement 0 must run before statement 1. -/
def exScop : ScopState := ⟨[((0, []), (1, []))], exCursor, none, false⟩

/-- A primitive that makes the example SCoP illegal: shift piece 1 (the
second statement) by -5, scheduling the dependence sink before its source. -/
def exShiftPrim : Cursor → Option Cursor := fun c =>
  (tadashi_partial_shift_val c 1 (-5)).toOption

/-- The partial schedule after the illegal shift. -/
def exShiftedMupa : Mupa :=
  ⟨some 3, 1, [⟨⟨0, 0⟩, [.add (.const 0) (.const 0)]⟩,
               ⟨⟨1, 0⟩, [.add (.const 1) (.const (-5))]⟩]⟩

/-- The cursor holding the rejected candidate schedule. -/
def exShiftedCursor : Cursor := ⟨.domainN exDom (.band exShiftedMupa false .leaf), [0]⟩

/-- The SCoP state after the rejected shift went through `post_transform`. -/
def exScopAfter : ScopState := ⟨[((0, []), (1, []))], exShiftedCursor, some exCursor, true⟩

/-- A schedule map sending both example instances to the same point. -/
def exFlatSched : List (StmtInstance × List Int) := [((0, []), [0]), ((1, []), [0])]

/-- The dependence list of the example SCoP, reused against `exFlatSched`. -/
def exDep : List (StmtInstance × StmtInstance) := [((0, []), (1, []))]

/-- Outer schedule of the interchange example. -/
def exM1 : Mupa := ⟨some 1, 1, [⟨⟨0, 1⟩, [.var 0]⟩]⟩

/-- Inner schedule of the interchange example. -/
def exM2 : Mupa := ⟨some 2, 1, [⟨⟨0, 1⟩, [.const 0]⟩]⟩

/-- Cursor focused on the outer band of a two-band tower. -/
def exTower : Cursor :=
  ⟨.domainN [(0, [0])] (.band exM1 false (.band exM2 false .leaf)), [0]⟩

/-- Cursor focused on a one-dimensional band over the instance (0, [5]). -/
def exBand1d : Cursor := ⟨.domainN [(0, [5])] (.band exM1 false .leaf), [0]⟩

/-- A band schedule with two pieces, both the identity on their statement's
single iteration variable. -/
def exM2pieces : Mupa := ⟨some 7, 1, [⟨⟨0, 1⟩, [.var 0]⟩, ⟨⟨1, 1⟩, [.var 0]⟩]⟩

/-- Cursor focused on the two-piece band. -/
def exBand2p : Cursor :=
  ⟨.domainN [(0, [3]), (1, [3])] (.band exM2pieces false .leaf), [0]⟩

/-- The two-piece band schedule after the full shift: piece 0 gained the
constant 5, piece 1 gained the constant 0. -/
def exShifted2pMupa : Mupa :=
  ⟨some 7, 1, [⟨⟨0, 1⟩, [.add (.var 0) (.const 5)]⟩,
               ⟨⟨1, 1⟩, [.add (.var 0) (.const 0)]⟩]⟩

/-- The cursor produced by the full shift on `exBand2p`. -/
def exShifted2pCursor : Cursor :=
  ⟨.domainN [(0, [3]), (1, [3])] (.band exShifted2pMupa false .leaf), [0]⟩

/-- A band schedule with two output dimensions. -/
def exM2d : Mupa := ⟨some 9, 2, [⟨⟨0, 1⟩, [.var 0, .var 0]⟩]⟩

/-- Cursor focused on the two-dimensional band. -/
def exBand2d : Cursor := ⟨.domainN [(0, [1])] (.band exM2d false .leaf), [0]⟩

/-- The example SCoP state with its cursor moved up to the root. -/
def exScopUp : ScopState :=
  ⟨[((0, []), (1, []))], ⟨.domainN exDom (.band exMupa false .leaf), []⟩, none, false⟩

/-- The band schedule reached by `tadashi_full_shift_val` on `exBand2p`
with piece index 0 and value 5, if any. -/
def exFullShiftResult : Option Mupa :=
  match tadashi_full_shift_val exBand2p 0 5 with
  | .ok c =>
    match subtreeAt c.tree c.path with
    | some (.band m _ _) => some m
    | _ => none
  | .error _ => none

/-! Helper lemmas about paths, subtrees and replacement. -/

theorem subtreeAt_append (p q : List Nat) : ∀ t : STree,
    subtreeAt t (p ++ q) = (subtreeAt t p).bind (fun s => subtreeAt s q) := by
  induction p with
  | nil => intro t; simp [subtreeAt]
  | cons i p ih =>
    intro t
    simp only [List.cons_append, subtreeAt]
    cases h : (STree.children t)[i]? with
    | none => simp
    | some c => simp [ih c]

theorem setChild_children {t : STree} {i : Nat} {c : STree}
    (h : (STree.children t)[i]? = some c) (x : STree) :
    ∃ t', setChild t i x = some t' ∧ STree.children t' = (STree.children t).set i x := by
  cases t with
  | leaf => simp [STree.children] at h
  | band m par ch =>
    cases i with
    | zero => exact ⟨.band m par x, rfl, by simp [STree.children]⟩
    | succ n => simp [STree.children] at h
  | filterN d ch =>
    cases i with
    | zero => exact ⟨.filterN d x, rfl, by simp [STree.children]⟩
    | succ n => simp [STree.children] at h
  | domainN d ch =>
    cases i with
    | zero => exact ⟨.domainN d x, rfl, by simp [STree.children]⟩
    | succ n => simp [STree.children] at h
  | sequenceN cs =>
    have hlt : i < cs.length := by
      have := List.getElem?_eq_some.mp (by simpa [STree.children] using h)
      exact this.1
    exact ⟨.sequenceN (cs.set i x), by simp [setChild, hlt], by simp [STree.children]⟩

theorem replaceAt_spec : ∀ (p : List Nat) (t s x : STree),
    subtreeAt t p = some s →
    ∃ t', replaceAt t p x = some t' ∧ subtreeAt t' p = some x := by
  intro p
  induction p with
  | nil => intro t s x _; exact ⟨x, rfl, rfl⟩
  | cons i p ih =>
    intro t s x h
    simp only [subtreeAt] at h
    cases hc : (STree.children t)[i]? with
    | none => rw [hc] at h; exact absurd h (by simp)
    | some c =>
      rw [hc] at h
      obtain ⟨c', hrc, hsc⟩ := ih c s x h
      obtain ⟨t', hset, hch⟩ := setChild_children hc c'
      have hlt : i < (STree.children t).length := (List.getElem?_eq_some.mp hc).1
      refine ⟨t', ?_, ?_⟩
      · simp [replaceAt, hc, hrc, hset]
      · simp only [subtreeAt, hch, List.getElem?_set_eq_of_lt c' hlt]
        exact hsc

theorem replaceAt_append : ∀ (p q : List Nat) (t x : STree),
    replaceAt t (p ++ q) x =
      (subtreeAt t p).bind (fun s =>
        (replaceAt s q x).bind (fun s' => replaceAt t p s')) := by
  intro p
  induction p with
  | nil => intro q t x; simp [subtreeAt, replaceAt]
  | cons i p ih =>
    intro q t x
    simp only [List.cons_append, replaceAt, subtreeAt]
    cases hc : (STree.children t)[i]? with
    | none => simp
    | some c =>
      simp only [Option.some_bind, List.append_eq]
      rw [ih q c x]
      cases hs : subtreeAt c p with
      | none => rfl
      | some s =>
        simp only [Option.some_bind]
        cases hr : replaceAt s q x with
        | none => rfl
        | some s' =>
          simp only [Option.some_bind, replaceAt, hc]

/-- Characterization of a successful driver transformation: the primitive
ran on a copy of the current cursor, the oracle's verdict is the returned
flag, and the state was swapped with `modified` set — whatever the
verdict. -/
theorem applyTransform_some (prim : Cursor → Option Cursor) (s : ScopState)
    (l : Bool) (s' : ScopState) (h : applyTransform prim s = some (l, s')) :
    ∃ cand, prim s.current = some cand ∧
      tadashi_check_legality cand.tree s.dependency = some l ∧
      s' = { dependency := s.dependency, current := cand,
             tmp := some s.current, modified := true } := by
  cases hp : prim s.current with
  | none =>
    rw [applyTransform] at h
    simp [pre_transform, post_transform, hp] at h
  | some cand =>
    cases hl : tadashi_check_legality cand.tree s.dependency with
    | none =>
      rw [applyTransform] at h
      simp [pre_transform, post_transform, hp, hl] at h
    | some lg =>
      rw [applyTransform] at h
      simp [pre_transform, post_transform, hp, hl] at h
      exact ⟨cand, rfl, by rw [hl, h.1], by rw [← h.2]⟩

/-- Characterization of a successful `set_parallel`: the annotation ran on
a copy of the current cursor, the parallel oracle's verdict is the
returned flag, and the state was swapped with `modified` set — whatever
the verdict. -/
theorem set_parallel_some (s : ScopState) (l : Bool) (s' : ScopState)
    (h : set_parallel s = some (l, s')) :
    ∃ cand, tadashi_set_parallel s.current = some cand ∧
      tadashi_check_legality_parallel ⟨cand.tree, cand.path ++ [0]⟩ s.dependency = some l ∧
      s' = { dependency := s.dependency, current := cand,
             tmp := some s.current, modified := true } := by
  cases hp : tadashi_set_parallel s.current with
  | none =>
    rw [set_parallel] at h
    simp [pre_transform, hp] at h
  | some cand =>
    cases hsub : subtreeAt cand.tree (cand.path ++ [0]) with
    | none =>
      rw [set_parallel] at h
      simp [pre_transform, hp, hsub] at h
    | some below =>
      cases hl : tadashi_check_legality_parallel ⟨cand.tree, cand.path ++ [0]⟩ s.dependency with
      | none =>
        rw [set_parallel] at h
        simp [pre_transform, hp, hsub, hl] at h
      | some lg =>
        rw [set_parallel] at h
        simp [pre_transform, hp, hsub, hl] at h
        exact ⟨cand, rfl, by rw [hl, h.1], by rw [← h.2]⟩


/-! Claim theorems. -/

/-- C1 (amended): for every driver transformation of the
pre_transform/primitive/post_transform shape — tile, interchange, fuse and
the shift variants — and for set_parallel, the returned flag is the
oracle's verdict (0 when it rejects), but the cursor swap happens
unconditionally: after the operation the candidate schedule is in the
current slot and the previous current cursor is in the scratch slot. -/
theorem C1_reject_returns_zero_but_swaps :
    (∀ (prim : Cursor → Option Cursor) (s : ScopState) (l : Bool) (s' : ScopState),
      applyTransform prim s = some (l, s') →
      ∃ cand, prim s.current = some cand ∧
        tadashi_check_legality cand.tree s.dependency = some l ∧
        s'.current = cand ∧ s'.tmp = some s.current) ∧
    (∀ (s : ScopState) (l : Bool) (s' : ScopState),
      set_parallel s = some (l, s') →
      ∃ cand, tadashi_set_parallel s.current = some cand ∧
        tadashi_check_legality_parallel ⟨cand.tree, cand.path ++ [0]⟩ s.dependency = some l ∧
        s'.current = cand ∧ s'.tmp = some s.current) := by
  constructor
  · intro prim s l s' h
    obtain ⟨cand, h1, h2, h3⟩ := applyTransform_some prim s l s' h
    exact ⟨cand, h1, h2, by rw [h3], by rw [h3]⟩
  · intro s l s' h
    obtain ⟨cand, h1, h2, h3⟩ := set_parallel_some s l s' h
    exact ⟨cand, h1, h2, by rw [h3], by rw [h3]⟩

/-- C1 counterexample: a rejected shift (the oracle returns 0) after which
the current cursor is NOT the cursor from before the operation — it holds
the rejected candidate — and the scratch slot holds the previous current
cursor rather than the rejected candidate. -/
theorem C1_counterexample :
    applyTransform exShiftPrim exScop = some (false, exScopAfter) ∧
    exScopAfter.current ≠ exScop.current ∧
    exScopAfter.tmp = some exScop.current ∧
    exScopAfter.tmp ≠ some exScopAfter.current := by
  refine ⟨by decide, by decide, by decide, by decide⟩

/-- C1 witness: the amended statement applied to the concrete rejected
shift on the example SCoP. -/
theorem C1_witness :
    applyTransform exShiftPrim exScop = some (false, exScopAfter) ∧
    (∃ cand, exShiftPrim exScop.current = some cand ∧
      tadashi_check_legality cand.tree exScop.dependency = some false ∧
      exScopAfter.current = cand ∧ exScopAfter.tmp = some exScop.current) :=
  ⟨by decide, C1_reject_returns_zero_but_swaps.1 exShiftPrim exScop false exScopAfter (by decide)⟩

/-- C3 (amended): the modified flag becomes true whenever a transformation
goes through post_transform or set_parallel, whether or not the oracle
accepted it; at code emission a SCoP whose flag is false is emitted as the
original SCoP text verbatim and a SCoP whose flag is true is emitted from
the schedule of its current cursor. -/
theorem C3_dirty_flag_and_emission :
    (∀ (prim : Cursor → Option Cursor) (s : ScopState) (l : Bool) (s' : ScopState),
      applyTransform prim s = some (l, s') → s'.modified = true) ∧
    (∀ (s : ScopState) (l : Bool) (s' : ScopState),
      set_parallel s = some (l, s') → s'.modified = true) ∧
    (∀ s : ScopState, s.modified = false → generate_code_callback s = .original) ∧
    (∀ s : ScopState, s.modified = true →
      generate_code_callback s = .generated s.current.tree) := by
  refine ⟨?_, ?_, ?_, ?_⟩
  · intro prim s l s' h
    obtain ⟨cand, _, _, h3⟩ := applyTransform_some prim s l s' h
    rw [h3]
  · intro s l s' h
    obtain ⟨cand, _, _, h3⟩ := set_parallel_some s l s' h
    rw [h3]
  · intro s h; simp [generate_code_callback, h]
  · intro s h; simp [generate_code_callback, h]

/-- C3 counterexample: a transformation the oracle rejected (it returned
0, nothing was committed in the claim's sense) still sets the modified
flag of the SCoP. -/
theorem C3_counterexample :
    exScop.modified = false ∧
    applyTransform exShiftPrim exScop = some (false, exScopAfter) ∧
    exScopAfter.modified = true := by
  refine ⟨rfl, by decide, rfl⟩

/-- C3 witness: the amended statement applied to the concrete rejected
shift and to concrete emission states. -/
theorem C3_witness :
    applyTransform exShiftPrim exScop = some (false, exScopAfter) ∧
    exScopAfter.modified = true ∧
    generate_code_callback exScop = .original ∧
    generate_code_callback exScopAfter = .generated exScopAfter.current.tree :=
  ⟨by decide,
   C3_dirty_flag_and_emission.1 exShiftPrim exScop false exScopAfter (by decide),
   C3_dirty_flag_and_emission.2.2.1 exScop rfl,
   C3_dirty_flag_and_emission.2.2.2 exScopAfter rfl⟩

/-- C7: applying any primitive through the begin/apply/commit sequence and
then calling rollback leaves the SCoP's current cursor equal to the
current cursor from before the operation, whether or not the oracle
accepted the transformation; likewise for set_parallel. -/
theorem C7_rollback_restores_current :
    (∀ (prim : Cursor → Option Cursor) (s : ScopState) (l : Bool) (s' : ScopState),
      applyTransform prim s = some (l, s') →
      ∃ s2, rollback s' = some s2 ∧ s2.current = s.current) ∧
    (∀ (s : ScopState) (l : Bool) (s' : ScopState),
      set_parallel s = some (l, s') →
      ∃ s2, rollback s' = some s2 ∧ s2.current = s.current) := by
  constructor
  · intro prim s l s' h
    obtain ⟨cand, _, _, h3⟩ := applyTransform_some prim s l s' h
    subst h3
    exact ⟨_, rfl, rfl⟩
  · intro s l s' h
    obtain ⟨cand, _, _, h3⟩ := set_parallel_some s l s' h
    subst h3
    exact ⟨_, rfl, rfl⟩

/-- C7 witness: rollback after the concrete rejected shift restores the
example SCoP's original current cursor. -/
theorem C7_witness :
    applyTransform exShiftPrim exScop = some (false, exScopAfter) ∧
    (∃ s2, rollback exScopAfter = some s2 ∧ s2.current = exScop.current) :=
  ⟨by decide, C7_rollback_restores_current.1 exShiftPrim exScop false exScopAfter (by decide)⟩

/-- C9: goto_root, goto_parent and goto_child move only the cursor: the
tree under the current cursor, the dependence relation, the modified flag
and the scratch cursor are unchanged. -/
theorem C9_navigation_moves_only_cursor :
    (∀ s : ScopState,
      (goto_root s).current.tree = s.current.tree ∧
      (goto_root s).dependency = s.dependency ∧
      (goto_root s).modified = s.modified ∧
      (goto_root s).tmp = s.tmp) ∧
    (∀ (s : ScopState) (s' : ScopState), goto_parent s = some s' →
      s'.current.tree = s.current.tree ∧
      s'.dependency = s.dependency ∧
      s'.modified = s.modified ∧
      s'.tmp = s.tmp) ∧
    (∀ (s : ScopState) (i : Nat) (s' : ScopState), goto_child s i = some s' →
      s'.current.tree = s.current.tree ∧
      s'.dependency = s.dependency ∧
      s'.modified = s.modified ∧
      s'.tmp = s.tmp) := by
  refine ⟨?_, ?_, ?_⟩
  · intro s
    exact ⟨rfl, rfl, rfl, rfl⟩
  · intro s s' h
    rw [goto_parent] at h
    cases hp : s.current.path with
    | nil => rw [hp] at h; exact absurd h (by simp)
    | cons i p =>
      rw [hp] at h
      have hs := (Option.some_inj.mp h).symm
      subst hs
      exact ⟨rfl, rfl, rfl, rfl⟩
  · intro s i s' h
    rw [goto_child] at h
    cases ht : subtreeAt s.current.tree s.current.path with
    | none => rw [ht] at h; exact absurd h (by simp)
    | some t =>
      rw [ht] at h
      dsimp only at h
      by_cases hi : i < (STree.children t).length
      · rw [if_pos hi] at h
        have hs := (Option.some_inj.mp h).symm
        subst hs
        exact ⟨rfl, rfl, rfl, rfl⟩
      · rw [if_neg hi] at h
        exact absurd h (by simp)

/-- C9 witness: the navigation operations applied to the example SCoP. -/
theorem C9_witness :
    goto_parent exScop = some exScopUp ∧
    exScopUp.current.tree = exScop.current.tree ∧
    exScopUp.dependency = exScop.dependency ∧
    exScopUp.modified = exScop.modified ∧
    exScopUp.tmp = exScop.tmp :=
  ⟨by decide, C9_navigation_moves_only_cursor.2.1 exScop exScopUp (by decide)⟩



/-- C2 (amended): check_legality returns legal when the dependence
relation is empty, and otherwise returns legal if and only if no element
of the delta set is lexicographically less than or equal to the zero
tuple (the lex_le relation between the delta set and the zero set is
empty); the non-strict comparison differs from the claim's strict one
exactly at the zero tuple itself, as the last conjunct makes precise. -/
theorem C2_check_legality_uses_lex_le :
    (∀ (S : List (StmtInstance × List Int)) (dep : List (StmtInstance × StmtInstance)),
      dep = [] → check_legality S dep = some true) ∧
    (∀ (S : List (StmtInstance × List Int)) (dep : List (StmtInstance × StmtInstance))
      (z : List Int),
      get_zeros_on_union_set (deltasOf (composeSched S dep)) = some z →
      (check_legality S dep = some true ↔
        ∀ d ∈ deltasOf (composeSched S dep), lexLe d z = false)) ∧
    (∀ a b : List Int, lexLe a b = (lexLt a b || decide (a = b))) := by
  refine ⟨?_, ?_, ?_⟩
  · intro S dep h
    subst h
    simp [check_legality]
  · intro S dep z hz
    by_cases hdep : dep.isEmpty
    · rw [List.isEmpty_iff] at hdep
      subst hdep
      simp [composeSched, deltasOf, get_zeros_on_union_set] at hz
    · rw [check_legality, if_neg hdep]
      dsimp only
      rw [hz]
      simp [List.all_eq_true]
  · intro a
    induction a with
    | nil => intro b; cases b <;> simp [lexLe, lexLt]
    | cons x xs ih =>
      intro b
      cases b with
      | nil => simp [lexLe, lexLt]
      | cons y ys =>
        simp only [lexLe, lexLt, ih ys]
        by_cases hxy : x = y
        · subst hxy
          by_cases hlt : x < x
          · exact absurd hlt (lt_irrefl x)
          · simp [hlt, List.cons_eq_cons]
        · simp [hxy, List.cons_eq_cons]

/-- C2 counterexample: a schedule map sending a dependence's source and
sink to the same schedule point: the only delta is the zero tuple, which
is not lexicographically less than zero, yet check_legality rejects,
because the code tests the non-strict relation lex_le. -/
theorem C2_counterexample :
    check_legality exFlatSched exDep = some false ∧
    deltasOf (composeSched exFlatSched exDep) = [[0]] ∧
    lexLt [0] [0] = false ∧
    (deltasOf (composeSched exFlatSched exDep)).all (fun d => !lexLt d [0]) = true :=
  ⟨by decide, by decide, by decide, by decide⟩

/-- C2 witness: the amended statement applied to the concrete
zero-delta schedule. -/
theorem C2_witness :
    get_zeros_on_union_set (deltasOf (composeSched exFlatSched exDep)) = some [0] ∧
    (check_legality exFlatSched exDep = some true ↔
      ∀ d ∈ deltasOf (composeSched exFlatSched exDep), lexLe d [0] = false) :=
  ⟨by decide, C2_check_legality_uses_lex_le.2.1 exFlatSched exDep [0] (by decide)⟩

/-- C4 (amended): on a cursor focused on a band whose sole child is a
band, interchange swaps the partial schedules of the two bands (the newly
inserted band carries default member annotations), but the returned
cursor is focused one step below the original position: on the inner band
of the new tower, the one now carrying the originally outer partial
schedule. -/
theorem C4_interchange_swaps_focus_inner :
    ∀ (tr : STree) (p : List Nat) (m1 m2 : Mupa) (b1 b2 : Bool) (inner : STree),
      subtreeAt tr p = some (.band m1 b1 (.band m2 b2 inner)) →
      ∃ tr', tadashi_interchange ⟨tr, p⟩ = some ⟨tr', p ++ [0]⟩ ∧
        subtreeAt tr' p = some (.band m2 b2 (.band m1 false inner)) ∧
        subtreeAt tr' (p ++ [0]) = some (.band m1 false inner) := by
  intro tr p m1 m2 b1 b2 inner hs
  obtain ⟨t1, hr1, hs1⟩ := replaceAt_spec p tr _ (.band m2 b2 inner) hs
  have hsub1 : subtreeAt t1 (p ++ [0]) = some inner := by
    rw [subtreeAt_append, hs1]
    simp [subtreeAt, STree.children]
  obtain ⟨t2, hr2, hs2⟩ := replaceAt_spec p t1 _ (.band m2 b2 (.band m1 false inner)) hs1
  have hrep_inner : replaceAt (.band m2 b2 inner) [0] (.band m1 false inner) =
      some (.band m2 b2 (.band m1 false inner)) := by
    simp [replaceAt, STree.children, setChild]
  have hr2' : replaceAt t1 (p ++ [0]) (.band m1 false inner) = some t2 := by
    rw [replaceAt_append, hs1]
    simp only [Option.some_bind]
    rw [hrep_inner]
    simp only [Option.some_bind]
    exact hr2
  refine ⟨t2, ?_, hs2, ?_⟩
  · simp [tadashi_interchange, hs, hr1, hsub1, hr2']
  · rw [subtreeAt_append, hs2]
    simp [subtreeAt, STree.children]

/-- C4 counterexample: interchanging a concrete two-band tower.  The
schedules are swapped, but the returned cursor's path is [0, 0], one
step below the original focus [0], and the focused band carries the
originally outer schedule — not the originally inner one, as claimed. -/
theorem C4_counterexample :
    tadashi_interchange exTower =
      some ⟨.domainN [(0, [0])] (.band exM2 false (.band exM1 false .leaf)), [0, 0]⟩ ∧
    (tadashi_interchange exTower).map Cursor.path ≠ some [0] ∧
    (tadashi_interchange exTower).map (fun c => subtreeAt c.tree c.path) =
      some (some (.band exM1 false .leaf)) ∧
    exM1 ≠ exM2 :=
  ⟨by decide, by decide, by decide, by decide⟩

/-- C4 witness: the amended statement applied to the concrete tower. -/
theorem C4_witness :
    subtreeAt exTower.tree [0] = some (.band exM1 false (.band exM2 false .leaf)) ∧
    (∃ tr', tadashi_interchange ⟨exTower.tree, [0]⟩ = some ⟨tr', [0] ++ [0]⟩ ∧
      subtreeAt tr' [0] = some (.band exM2 false (.band exM1 false .leaf)) ∧
      subtreeAt tr' ([0] ++ [0]) = some (.band exM1 false .leaf)) :=
  ⟨by decide,
   C4_interchange_swaps_focus_inner exTower.tree [0] exM1 exM2 false false .leaf (by decide)⟩

/-- C5 (amended): on a cursor focused on a band with a one-dimensional
partial schedule and a positive tile size, tile replaces the band by a
two-level tower and leaves the cursor focused on the outer band; with
isl's default options the outer (tile) dimension takes the values
tile_size * floor(d / tile_size) — not floor(d / tile_size) — and the
inner (point) dimension the values d mod tile_size, for each value d of
the original schedule dimension. -/
theorem C5_tile_tower :
    ∀ (tr : STree) (p : List Nat) (m : Mupa) (par : Bool) (child : STree) (t : Int),
      subtreeAt tr p = some (.band m par child) →
      m.dimOut = 1 → 0 < t →
      ∃ tr', tadashi_tile ⟨tr, p⟩ t = some ⟨tr', p⟩ ∧
        subtreeAt tr' p =
          some (.band (tileOuter m t) par (.band (tileInner m t) par child)) ∧
        (∀ (a : Aff) (xs : List Int),
          Aff.eval (.mul t (.fdiv a t)) xs = t * Int.fdiv (Aff.eval a xs) t) ∧
        (∀ (a : Aff) (xs : List Int),
          Aff.eval (.add a (.mul (-t) (.fdiv a t))) xs = Aff.eval a xs % t) := by
  intro tr p m par child t hs hd ht
  obtain ⟨tr', hr, hsub⟩ := replaceAt_spec p tr _
    (.band (tileOuter m t) par (.band (tileInner m t) par child)) hs
  refine ⟨tr', ?_, hsub, ?_, ?_⟩
  · simp [tadashi_tile, hs, hd, ht, hr]
  · intro a xs
    rfl
  · intro a xs
    show Aff.eval a xs + (-t) * Int.fdiv (Aff.eval a xs) t = _
    rw [Int.fdiv_eq_ediv _ (le_of_lt ht), Int.emod_def]
    ring

/-- C5 counterexample: tiling the identity schedule by 2 and evaluating at
d = 5: the outer band dimension evaluates to 4 = 2 * floor(5 / 2), not
floor(5 / 2) = 2 as the claim states. -/
theorem C5_counterexample :
    (tadashi_tile exBand1d 2).map Cursor.path = some [0] ∧
    (tadashi_tile exBand1d 2).map (fun c => subtreeAt c.tree [0]) =
      some (some (.band (tileOuter exM1 2) false (.band (tileInner exM1 2) false .leaf))) ∧
    (tileOuter exM1 2).pieces.map (fun pc => pc.affs.map (fun a => Aff.eval a [5])) = [[4]] ∧
    Int.fdiv 5 2 = 2 ∧ (4 : Int) ≠ 2 :=
  ⟨by decide, by decide, by decide, by decide, by decide⟩

/-- C5 witness: the amended statement applied to the concrete
one-dimensional band with tile size 2. -/
theorem C5_witness :
    subtreeAt exBand1d.tree [0] = some (.band exM1 false .leaf) ∧
    exM1.dimOut = 1 ∧ (0 : Int) < 2 ∧
    (∃ tr', tadashi_tile ⟨exBand1d.tree, [0]⟩ 2 = some ⟨tr', [0]⟩ ∧
      subtreeAt tr' [0] =
        some (.band (tileOuter exM1 2) false (.band (tileInner exM1 2) false .leaf)) ∧
      (∀ (a : Aff) (xs : List Int),
        Aff.eval (.mul 2 (.fdiv a 2)) xs = 2 * Int.fdiv (Aff.eval a xs) 2) ∧
      (∀ (a : Aff) (xs : List Int),
        Aff.eval (.add a (.mul (-2) (.fdiv a 2))) xs = Aff.eval a xs % 2)) :=
  ⟨by decide, rfl, by decide,
   C5_tile_tower exBand1d.tree [0] exM1 false .leaf 2 (by decide) rfl (by decide)⟩

/-- C6: tadashi_full_shift_val with value 5 and piece index 0 on a band
whose schedule has two pieces, both the identity (value 3 at iteration 3):
the piece selected by the index gains the constant (3 becomes 8), but the
other piece is unchanged (3 stays 3), so the constant is not added on
every piece of the piecewise domain — the full variant behaves exactly
like the partial one. -/
theorem C6_full_shift_val_not_everywhere :
    exFullShiftResult.map
        (fun m => m.pieces.map (fun pc => pc.affs.map (fun a => Aff.eval a [3]))) =
      some [[8], [3]] ∧
    evalMupa exM2pieces (0, [3]) = some [3] ∧
    evalMupa exM2pieces (1, [3]) = some [3] ∧
    exFullShiftResult.map Mupa.tupleId = some (some 7) :=
  ⟨by decide, by decide, by decide, by decide⟩


/-- Helper: a successful run of the shift helper reads a band at the
focus and writes back, at the same focus, a band with the same member
annotation, the same child and a partial schedule carrying the original
output tuple identifier. -/
theorem shiftPartialImpl_tupleId (c : Cursor) (fn : SetD → Int → Option PwAff)
    (i v : Int) (c' : Cursor) (m : Mupa) (par : Bool) (ch : STree)
    (hs : subtreeAt c.tree c.path = some (.band m par ch))
    (h : shiftPartialImpl c fn i v = .ok c') :
    ∃ m', subtreeAt c'.tree c'.path = some (.band m' par ch) ∧
      m'.tupleId = m.tupleId := by
  rw [shiftPartialImpl, hs] at h
  try dsimp only at h
  by_cases hd : m.dimOut = 1
  · rw [if_pos hd] at h
    split at h
    · exact Except.noConfusion h
    · try dsimp only at h
      split at h
      · next t2 hrep =>
          obtain ⟨t3, hr3, hs3⟩ := replaceAt_spec c.path c.tree _ _ hs
          rw [hrep] at hr3
          cases hr3
          cases h
          exact ⟨_, hs3, rfl⟩
      · exact Except.noConfusion h
  · rw [if_neg hd] at h
    exact Except.noConfusion h

/-- Helper: the shift helper ends in the assertion failure exactly when
the focused node is a band whose partial schedule is not
one-dimensional. -/
theorem shiftPartialImpl_assertFail_iff (c : Cursor) (fn : SetD → Int → Option PwAff)
    (i v : Int) :
    shiftPartialImpl c fn i v = .error .assertFail ↔
      ∃ m par ch, subtreeAt c.tree c.path = some (.band m par ch) ∧ m.dimOut ≠ 1 := by
  constructor
  · intro h
    cases hs : subtreeAt c.tree c.path with
    | none =>
      rw [shiftPartialImpl, hs] at h
      simp at h
    | some t =>
      cases t with
      | band m par ch =>
        rw [shiftPartialImpl, hs] at h
        try dsimp only at h
        by_cases hd : m.dimOut = 1
        · exfalso
          rw [if_pos hd] at h
          split at h
          · simp at h
          · try dsimp only at h
            split at h
            · exact Except.noConfusion h
            · simp at h
        · exact ⟨m, par, ch, rfl, hd⟩
      | leaf => rw [shiftPartialImpl, hs] at h; simp at h
      | filterN d ch => rw [shiftPartialImpl, hs] at h; simp at h
      | sequenceN cs => rw [shiftPartialImpl, hs] at h; simp at h
      | domainN d ch => rw [shiftPartialImpl, hs] at h; simp at h
  · rintro ⟨m, par, ch, hs, hd⟩
    rw [shiftPartialImpl, hs]
    try dsimp only
    rw [if_neg hd]

/-- C8: each of the four shift variants, run successfully on a cursor
focused on a band, leaves the output tuple identifier of the band's
partial schedule unchanged (the delta is built with the saved identifier
and the shifted schedule keeps it). -/
theorem C8_shift_preserves_tuple_id :
    (∀ (c : Cursor) (i v : Int) (c' : Cursor) (m : Mupa) (par : Bool) (ch : STree),
      subtreeAt c.tree c.path = some (.band m par ch) →
      tadashi_partial_shift_val c i v = .ok c' →
      ∃ m', subtreeAt c'.tree c'.path = some (.band m' par ch) ∧
        m'.tupleId = m.tupleId) ∧
    (∀ (c : Cursor) (i v : Int) (c' : Cursor) (m : Mupa) (par : Bool) (ch : STree),
      subtreeAt c.tree c.path = some (.band m par ch) →
      tadashi_partial_shift_var c i v = .ok c' →
      ∃ m', subtreeAt c'.tree c'.path = some (.band m' par ch) ∧
        m'.tupleId = m.tupleId) ∧
    (∀ (c : Cursor) (i v : Int) (c' : Cursor) (m : Mupa) (par : Bool) (ch : STree),
      subtreeAt c.tree c.path = some (.band m par ch) →
      tadashi_full_shift_val c i v = .ok c' →
      ∃ m', subtreeAt c'.tree c'.path = some (.band m' par ch) ∧
        m'.tupleId = m.tupleId) ∧
    (∀ (c : Cursor) (i v : Int) (c' : Cursor) (m : Mupa) (par : Bool) (ch : STree),
      subtreeAt c.tree c.path = some (.band m par ch) →
      tadashi_full_shift_var c i v = .ok c' →
      ∃ m', subtreeAt c'.tree c'.path = some (.band m' par ch) ∧
        m'.tupleId = m.tupleId) :=
  ⟨fun c i v c' m par ch hs h => shiftPartialImpl_tupleId c _ i v c' m par ch hs h,
   fun c i v c' m par ch hs h => shiftPartialImpl_tupleId c _ i v c' m par ch hs h,
   fun c i v c' m par ch hs h => shiftPartialImpl_tupleId c _ i v c' m par ch hs h,
   fun c i v c' m par ch hs h => shiftPartialImpl_tupleId c _ i v c' m par ch hs h⟩

/-- C8 witness: the full shift on the concrete two-piece band keeps the
tuple identifier 7. -/
theorem C8_witness :
    tadashi_full_shift_val exBand2p 0 5 = .ok exShifted2pCursor ∧
    (∃ m', subtreeAt exShifted2pCursor.tree exShifted2pCursor.path =
        some (.band m' false .leaf) ∧ m'.tupleId = exM2pieces.tupleId) :=
  ⟨by rfl,
   C8_shift_preserves_tuple_id.2.2.1 exBand2p 0 5 exShifted2pCursor exM2pieces false .leaf
     (by decide) (by rfl)⟩

/-- C10: each of the four shift entry points ends in the dimension
assertion's failure exactly when the focused node is a band whose partial
schedule is not one-dimensional: on a band with a one-dimensional partial
schedule the assertion is unreachable, and on a band of any other
dimensionality the operation aborts on it. -/
theorem C10_shift_asserts_dim_one :
    (∀ (c : Cursor) (i v : Int),
      tadashi_partial_shift_val c i v = .error .assertFail ↔
        ∃ m par ch, subtreeAt c.tree c.path = some (.band m par ch) ∧ m.dimOut ≠ 1) ∧
    (∀ (c : Cursor) (i v : Int),
      tadashi_partial_shift_var c i v = .error .assertFail ↔
        ∃ m par ch, subtreeAt c.tree c.path = some (.band m par ch) ∧ m.dimOut ≠ 1) ∧
    (∀ (c : Cursor) (i v : Int),
      tadashi_full_shift_val c i v = .error .assertFail ↔
        ∃ m par ch, subtreeAt c.tree c.path = some (.band m par ch) ∧ m.dimOut ≠ 1) ∧
    (∀ (c : Cursor) (i v : Int),
      tadashi_full_shift_var c i v = .error .assertFail ↔
        ∃ m par ch, subtreeAt c.tree c.path = some (.band m par ch) ∧ m.dimOut ≠ 1) :=
  ⟨fun c i v => shiftPartialImpl_assertFail_iff c _ i v,
   fun c i v => shiftPartialImpl_assertFail_iff c _ i v,
   fun c i v => shiftPartialImpl_assertFail_iff c _ i v,
   fun c i v => shiftPartialImpl_assertFail_iff c _ i v⟩

/-- C10 witness: the partial shift aborts on the assertion at the concrete
two-dimensional band, and runs past it on the one-dimensional band. -/
theorem C10_witness :
    tadashi_partial_shift_val exBand2d 0 1 = .error .assertFail ∧
    tadashi_partial_shift_val exBand2p 0 1 ≠ .error .assertFail :=
  ⟨(C10_shift_asserts_dim_one.1 exBand2d 0 1).mpr ⟨exM2d, false, .leaf, by decide, by decide⟩,
   fun h => by
    obtain ⟨m, par, ch, hs, hd⟩ := (C10_shift_asserts_dim_one.1 exBand2p 0 1).mp h
    rw [show subtreeAt exBand2p.tree exBand2p.path =
          some (.band exM2pieces false .leaf) from by decide] at hs
    cases hs
    exact hd rfl⟩

end Tadashi
